import Mathlib

/-!
Shallow embedding of the errgo error-wrapping library.

Strings from the Go source are modelled as `List Char`.  The runtime's
stack-walking primitive (`runtime.Callers`) is modelled by passing in the
ambient list of raw return addresses (`callers`), already positioned past
the skipped frames; capture truncates it at the current `MaxStackDepth`
value, which is passed explicitly since it is a process-wide mutable
variable.  The runtime symbol table (`runtime.FuncForPC` together with
`(*runtime.Func).Name`/`FileLine`) is modelled as an injected function
`Nat → Option RFunc`.  Pointers to `StackableError` objects are modelled
by references into an explicit heap (`St`), so that identity, aliasing and
in-place mutation are observable.
-/

namespace ErrgoProof

/-- Default value of the process-wide `MaxStackDepth` variable. -/
def MaxStackDepth : Nat := 50

/-- Embeds the Go struct `StackFrame` from stackframe.go; strings are
`List Char`, `Caller` (a `uintptr`) and `LineNumber` are `Nat`. -/
structure StackFrame where
  Caller : Nat
  File : List Char
  LineNumber : Nat
  FunctionName : List Char
  Package : List Char
deriving DecidableEq

/-- The Go zero-value composite literal `StackFrame{Caller: caller}`:
all string fields empty, line number zero. -/
def initFrame (caller : Nat) : StackFrame :=
  { Caller := caller, File := [], LineNumber := 0, FunctionName := [], Package := [] }

/-- `strings.LastIndex name c` for a single character: index of the last
occurrence of `c`, if any. -/
def lastIndex (c : Char) : List Char → Option Nat
  | [] => none
  | a :: rest =>
    match lastIndex c rest with
    | some i => some (i + 1)
    | none => if a = c then some 0 else none

/-- `strings.Index name c` for a single character: index of the first
occurrence of `c`, if any. -/
def firstIndex (c : Char) : List Char → Option Nat
  | [] => none
  | a :: rest => if a = c then some 0 else (firstIndex c rest).map (· + 1)

/-- Embeds `packageAndName` from stackframe.go, applied to the function's
qualified name (`fn.Name()`).  `name[:lastslash] + "/"` becomes
`take i ++ ['/']`, `name[lastslash+1:]` becomes `drop (i+1)`, and the final
`strings.Replace(name, "·", ".", -1)` is a character map since the pattern
is a single character. -/
def packageAndName (fname : List Char) : List Char × List Char :=
  let s1 : List Char × List Char :=
    match lastIndex '/' fname with
    | some i => (fname.take i ++ ['/'], fname.drop (i + 1))
    | none => ([], fname)
  let s2 : List Char × List Char :=
    match firstIndex '.' s1.2 with
    | some i => (s1.1 ++ s1.2.take i, s1.2.drop (i + 1))
    | none => (s1.1, s1.2)
  (s2.1, s2.2.map (fun ch => if ch = '·' then '.' else ch))

/-- `strings.Split file "/"`: splits at every `'/'`; always returns at
least one (possibly empty) segment. -/
def splitOnSlash : List Char → List (List Char)
  | [] => [[]]
  | ch :: rest =>
    match splitOnSlash rest with
    | [] => [[]]
    | g :: gs => if ch = '/' then [] :: g :: gs else (ch :: g) :: gs

/-- The literal segment `"src"` the relativizer searches for. -/
def srcSegment : List Char := ['s', 'r', 'c']

/-- Embeds `RelativeFilePath` from stackframe.go: `count` is the number of
leading segments different from `"src"`; when every segment differs the
input is returned unchanged, otherwise the segments after the `"src"`
segment are rebuilt each preceded by `'/'`. -/
def RelativeFilePath (file : List Char) : List Char :=
  let folders := splitOnSlash file
  let count := (folders.takeWhile (fun f => !(f == srcSegment))).length
  if folders.length ≤ count then file
  else ((folders.drop (count + 1)).map (fun f => '/' :: f)).flatten

/-- Model of a `*runtime.Func`: its qualified name and its
`FileLine : pc → (file, line)` method. -/
structure RFunc where
  name : List Char
  fileLine : Nat → List Char × Nat

/-- Embeds `(frame *StackFrame) Func()`: `nil` for the zero program
counter, otherwise `runtime.FuncForPC(frame.Caller)` looked up in the
injected symbol table. -/
def StackFrame.Func (symtab : Nat → Option RFunc) (frame : StackFrame) : Option RFunc :=
  if frame.Caller = 0 then none else symtab frame.Caller

/-- Embeds `NewStackFrame` from stackframe.go: start from the zero-value
frame carrying the caller; if no function resolves, return it as is;
otherwise fill package/function name from `packageAndName` and file/line
from `FileLine(caller - 1)`. -/
def NewStackFrame (symtab : Nat → Option RFunc) (caller : Nat) : StackFrame :=
  let frame := initFrame caller
  match frame.Func symtab with
  | none => frame
  | some fn =>
    let pn := packageAndName fn.name
    let fl := fn.fileLine (caller - 1)
    { frame with Package := pn.1, FunctionName := pn.2, File := fl.1, LineNumber := fl.2 }

/-- Embeds `(frame *StackFrame) String()`:
`"<relative file>: <function name>: line <line>"`. -/
def StackFrame.line (frame : StackFrame) : List Char :=
  RelativeFilePath frame.File ++ (": ").toList ++ frame.FunctionName
    ++ (": line ").toList ++ (Nat.repr frame.LineNumber).toList

/-- A Go `error` value as seen by this package: either a plain error
object (identified by `id`, carrying its `Error()` text) or a pointer to a
`StackableError` (a reference into the heap `St`). -/
inductive GoError where
  | base (id : Nat) (msg : List Char)
  | se (ref : Nat)
deriving DecidableEq

/-- The fields of a heap-allocated `StackableError` (part_000): cause,
prefix list, captured raw addresses, and the lazily filled frame cache
(`none` models the `nil` slice). -/
structure SEData where
  Err : GoError
  Prefixes : List (List Char)
  stack : List Nat
  frames : Option (List StackFrame)
deriving DecidableEq

/-- The heap: a fresh-reference counter and an association list from
references to `StackableError` contents (most recent binding first). -/
structure St where
  next : Nat
  mem : List (Nat × SEData)
deriving DecidableEq

/-- In-place mutation of the object reference `r` points to. -/
def St.update (st : St) (r : Nat) (f : SEData → SEData) : St :=
  { st with mem := st.mem.map (fun p => cond (p.1 == r) (p.1, f p.2) p) }

/-- Recognizes a `*StackableError` dynamic type. -/
def isSE : GoError → Bool
  | .se _ => true
  | _ => false

/-- No heap cell has a `*StackableError` sitting in its cause field. -/
def noNest (st : St) : Bool :=
  st.mem.all (fun p => !(isSE p.2.Err))

/-- Embeds `newStackableError` (part_000): `runtime.Callers` fills a
buffer of size `mx` (the current `MaxStackDepth`) from the ambient
addresses, so the captured slice is `callers.take mx`; the new object has
no prefixes and a `nil` frame cache, and is allocated at a fresh
reference. -/
def newStackableError (mx : Nat) (callers : List Nat) (e : GoError) (st : St) : Nat × St :=
  let stack := callers.take mx
  (st.next, ⟨st.next + 1, (st.next, ⟨e, [], stack, none⟩) :: st.mem⟩)

/-- The `interface{}` argument of `Wrap`: an error value, or a non-error
value whose `fmt` rendering is `txt`. -/
inductive GoVal where
  | err (e : GoError)
  | nonErr (txt : List Char)

/-- Embeds `Wrap` (part_000): a value that is already a `*StackableError`
is returned as is; an error becomes the cause; anything else is first
turned into a fresh error by `fmt.Errorf` (modelled as a `base` error with
a fresh identity). -/
def Wrap (mx : Nat) (callers : List Nat) (v : GoVal) (st : St) : Nat × St :=
  match v with
  | .err (.se r) => (r, st)
  | .err e => newStackableError mx callers e st
  | .nonErr txt =>
    newStackableError mx callers (.base st.next txt) { st with next := st.next + 1 }

/-- Embeds `WrapPrefix` (part_000): wrap, then append the prefix to the
`Prefixes` field of the returned object, in place. -/
def WrapPrefix (mx : Nat) (callers : List Nat) (v : GoVal) (pfx : List Char) (st : St) :
    Nat × St :=
  let rs := Wrap mx callers v st
  (rs.1, rs.2.update rs.1 (fun d => { d with Prefixes := d.Prefixes ++ [pfx] }))

/-- Embeds the `error` interface's `Error()` dispatch: a `base` error
returns its text; a `*StackableError` (method `Error` in part_000) takes
its cause's text and folds each prefix in order as
`fmt.Sprintf("%s: %s", prefix, msg)`.  `fuel` bounds the chase through
heap references (in Go the cause field is a direct pointer). -/
def errorMsg (st : St) : Nat → GoError → Option (List Char)
  | _, .base _ m => some m
  | 0, .se _ => none
  | fuel + 1, .se r =>
    match st.mem.lookup r with
    | none => none
    | some d =>
      match errorMsg st fuel d.Err with
      | none => none
      | some m => some (d.Prefixes.foldl (fun acc p => p ++ ':' :: ' ' :: acc) m)

/-- Go interface equality `e == original` restricted to the error values
of this model: plain errors compare by object identity (`id`), stackable
errors by pointer (`ref`); mixed comparisons are false. -/
def goEq : GoError → GoError → Bool
  | .base i _, .base j _ => i == j
  | .se r, .se r2 => r == r2
  | _, _ => false

/-- Embeds `Is` (part_000): identical objects are equal; otherwise a
`*StackableError` on the left unwraps to its cause, then one on the right
unwraps to its cause; otherwise false.  `fuel` bounds the recursion. -/
def Is (st : St) : Nat → GoError → GoError → Bool
  | 0, _, _ => false
  | fuel + 1, e, orig =>
    if goEq e orig then true
    else
      match e with
      | .se r =>
        match st.mem.lookup r with
        | some d => Is st fuel d.Err orig
        | none => false
      | _ =>
        match orig with
        | .se r =>
          match st.mem.lookup r with
          | some d => Is st fuel e d.Err
          | none => false
        | _ => false

/-- Embeds `(err *StackableError) Callers()`. -/
def Callers (st : St) (r : Nat) : Option (List Nat) :=
  (st.mem.lookup r).map (·.stack)

/-- Embeds `(err *StackableError) StackFrames()` (part_000): if the frame
cache is `nil`, resolve every captured address through `NewStackFrame` and
store the result in place; then return the cached array. -/
def StackFrames (symtab : Nat → Option RFunc) (st : St) (r : Nat) :
    Option (List StackFrame) × St :=
  match st.mem.lookup r with
  | none => (none, st)
  | some d =>
    match d.frames with
    | some fs => (some fs, st)
    | none =>
      let fs := d.stack.map (fun pc => NewStackFrame symtab pc)
      (some fs, st.update r (fun d0 => { d0 with frames := some fs }))

/-- Embeds `(err *StackableError) Stack()` (part_000): each resolved
frame's `String()` rendering followed by a newline, concatenated. -/
def Stack (symtab : Nat → Option RFunc) (st : St) (r : Nat) : Option (List Char) × St :=
  match StackFrames symtab st r with
  | (some fs, st2) => (some ((fs.map (fun f => f.line ++ ['\n'])).flatten), st2)
  | (none, st2) => (none, st2)

/-- Embeds `(err *StackableError) StackTrace()` (part_000):
`"ERROR: " + err.Error() + "\n" + err.Stack()`. -/
def StackTrace (symtab : Nat → Option RFunc) (fuel : Nat) (st : St) (r : Nat) :
    Option (List Char) × St :=
  match errorMsg st fuel (.se r), Stack symtab st r with
  | some m, (some s, st2) => (some (("ERROR: ").toList ++ m ++ '\n' :: s), st2)
  | _, (_, st2) => (none, st2)

/-! ### Helper lemmas about association-list lookup and list splitting -/

theorem lookup_cons_self {β : Type} (k : Nat) (d : β) (l : List (Nat × β)) :
    List.lookup k ((k, d) :: l) = some d := by
  simp [List.lookup]

theorem lookup_cons_ne {β : Type} {k k2 : Nat} (d : β) (l : List (Nat × β)) (h : k2 ≠ k) :
    List.lookup k2 ((k, d) :: l) = List.lookup k2 l := by
  have hb : (k2 == k) = false := by simp [h]
  simp [List.lookup, hb]

theorem lookup_update_self (l : List (Nat × SEData)) (r : Nat) (f : SEData → SEData) :
    (l.map (fun p => cond (p.1 == r) (p.1, f p.2) p)).lookup r = (l.lookup r).map f := by
  induction l with
  | nil => simp
  | cons p l ih =>
    obtain ⟨a, b⟩ := p
    by_cases h : a = r
    · subst h
      simp [List.lookup, ih]
    · have hb : (a == r) = false := by simp [h]
      have hb2 : (r == a) = false := by simp [Ne.symm h]
      simp [List.lookup, hb, hb2, ih]

theorem lookup_update_ne (l : List (Nat × SEData)) {r r2 : Nat} (f : SEData → SEData)
    (h : r2 ≠ r) :
    (l.map (fun p => cond (p.1 == r) (p.1, f p.2) p)).lookup r2 = l.lookup r2 := by
  induction l with
  | nil => simp
  | cons p l ih =>
    obtain ⟨a, b⟩ := p
    by_cases hp : a = r
    · subst hp
      have hb : (r2 == a) = false := by simp [h]
      simp [List.lookup, hb, ih]
    · have hbp : (a == r) = false := by simp [hp]
      by_cases hk : r2 = a
      · subst hk
        simp [List.lookup, hbp, ih]
      · have hb : (r2 == a) = false := by simp [hk]
        simp [List.lookup, hbp, hb, ih]

theorem takeWhile_of_all {α : Type} (p : α → Bool) (l : List α) (h : ∀ a ∈ l, p a = true) :
    l.takeWhile p = l := by
  induction l with
  | nil => rfl
  | cons a l ih =>
    have ha := h a (List.mem_cons_self a l)
    have hl : List.takeWhile p l = l := ih (fun b hb => h b (List.mem_cons_of_mem a hb))
    simp [List.takeWhile_cons, ha, hl]

theorem takeWhile_middle {α : Type} (p : α → Bool) (pre : List α) (x : α) (post : List α)
    (h : ∀ a ∈ pre, p a = true) (hx : p x = false) :
    (pre ++ x :: post).takeWhile p = pre := by
  induction pre with
  | nil => simp [List.takeWhile_cons, hx]
  | cons a l ih =>
    have ha := h a (List.mem_cons_self a l)
    have hl := ih (fun b hb => h b (List.mem_cons_of_mem a hb))
    simp [List.takeWhile_cons, ha, hl]

theorem take_len_append {α : Type} (p q : List α) : (p ++ q).take p.length = p := by
  induction p with
  | nil => simp
  | cons a l ih => simp [ih]

theorem drop_len_append {α : Type} (p q : List α) : (p ++ q).drop p.length = q := by
  induction p with
  | nil => simp
  | cons a l ih => simp [ih]

theorem lastIndex_of_not_mem {c : Char} {l : List Char} (h : c ∉ l) :
    lastIndex c l = none := by
  induction l with
  | nil => rfl
  | cons a l ih =>
    have ha : a ≠ c := fun e => h (by simp [e])
    have := ih (fun m => h (by simp [m]))
    simp [lastIndex, this, ha]

theorem lastIndex_append {c : Char} (p q : List Char) (hq : c ∉ q) :
    lastIndex c (p ++ c :: q) = some p.length := by
  induction p with
  | nil => simp [lastIndex, lastIndex_of_not_mem hq]
  | cons a l ih => simp [lastIndex, ih]

theorem firstIndex_append {c : Char} (a b : List Char) (ha : c ∉ a) :
    firstIndex c (a ++ c :: b) = some a.length := by
  induction a with
  | nil => simp [firstIndex]
  | cons x l ih =>
    have hx : x ≠ c := fun e => ha (by simp [e])
    have := ih (fun m => ha (by simp [m]))
    simp [firstIndex, hx, this]

/-! ### Claim theorems -/

/-- Claim C1: wrapping a value that is already a `*StackableError` returns that
same object unchanged in identity (same reference, heap untouched, so same
captured addresses and prefixes and no new stack capture), and wrapping never
creates a `StackableError` nested inside another `StackableError`'s cause
field. -/
theorem wrap_idempotent (mx : Nat) (callers : List Nat) (r : Nat) (st : St) (v : GoVal)
    (h : noNest st = true) :
    Wrap mx callers (.err (.se r)) st = (r, st)
      ∧ noNest (Wrap mx callers v st).2 = true := by
  refine ⟨rfl, ?_⟩
  cases v with
  | err e =>
    cases e with
    | se r2 => simpa [Wrap, noNest] using h
    | base i m =>
      simp [Wrap, newStackableError, noNest, isSE] at h ⊢
      exact h
  | nonErr t =>
    simp [Wrap, newStackableError, noNest, isSE] at h ⊢
    exact h

theorem wrap_idempotent_witness :
    Wrap 50 [1, 2, 3] (.err (.se 0)) ⟨0, []⟩ = (0, ⟨0, []⟩)
      ∧ noNest (Wrap 50 [1, 2, 3] (.err (.base 4 [])) ⟨0, []⟩).2 = true :=
  wrap_idempotent 50 [1, 2, 3] 0 ⟨0, []⟩ (.err (.base 4 [])) (by decide)

/-- Claim C4, counterexample: on the qualified name
`example.com/pkg/sub.Type·method` the split does not yield package
`example.com/pkg/sub.Type` and function name `method` — the remainder is cut
at its first plain period (after `sub`), not at the center dot. -/
theorem package_and_name_claim_example_false :
    packageAndName (("example.com/pkg/sub.Type·method").toList)
      ≠ ((("example.com/pkg/sub.Type").toList), ("method").toList) := by
  decide

/-- Claim C4 (amended): `packageAndName` strips everything up to and including
the last `'/'` into the package prefix, appends everything before the first
`'.'` of the remainder to the package, and takes everything after that period
as the function name with every center dot `'·'` replaced by a plain period;
in particular `example.com/pkg/sub.Type·method` splits into package
`example.com/pkg/sub` and function name `Type.method`. -/
theorem package_and_name_split (p a b : List Char)
    (hq : '/' ∉ a ++ '.' :: b) (ha : '.' ∉ a) :
    packageAndName (p ++ '/' :: (a ++ '.' :: b))
      = (p ++ '/' :: a, b.map (fun ch => if ch = '·' then '.' else ch)) := by
  have h1 : lastIndex '/' (p ++ '/' :: (a ++ '.' :: b)) = some p.length :=
    lastIndex_append p (a ++ '.' :: b) hq
  have h2 : firstIndex '.' (a ++ '.' :: b) = some a.length := firstIndex_append a b ha
  have e1 : (p ++ '/' :: (a ++ '.' :: b)).take p.length = p :=
    take_len_append p ('/' :: (a ++ '.' :: b))
  have e2 : (p ++ '/' :: (a ++ '.' :: b)).drop (p.length + 1) = a ++ '.' :: b := by
    have h3 : p ++ '/' :: (a ++ '.' :: b) = (p ++ ['/']) ++ (a ++ '.' :: b) := by simp
    have h4 : p.length + 1 = (p ++ ['/']).length := by simp
    rw [h3, h4, drop_len_append]
  have e3 : (a ++ '.' :: b).take a.length = a := take_len_append a ('.' :: b)
  have e4 : (a ++ '.' :: b).drop (a.length + 1) = b := by
    have h3 : a ++ '.' :: b = (a ++ ['.']) ++ b := by simp
    have h4 : a.length + 1 = (a ++ ['.']).length := by simp
    rw [h3, h4, drop_len_append]
  simp [packageAndName, h1, h2, e1, e2, e3, e4]

theorem package_and_name_split_witness :
    packageAndName (("example.com/pkg/sub.Type·method").toList)
      = ((("example.com/pkg/sub").toList), ("Type.method").toList) := by
  have h := package_and_name_split (("example.com/pkg").toList) (("sub").toList)
    (("Type·method").toList) (by decide) (by decide)
  have e : ("example.com/pkg").toList ++ '/' :: (("sub").toList ++ '.' :: ("Type·method").toList)
      = ("example.com/pkg/sub.Type·method").toList := by decide
  have e2 : (("example.com/pkg").toList ++ '/' :: ("sub").toList,
        (("Type·method").toList).map (fun ch => if ch = '·' then '.' else ch))
      = ((("example.com/pkg/sub").toList), ("Type.method").toList) := by decide
  rw [← e, ← e2]
  exact h

/-- Claim C5: `RelativeFilePath` strips everything up to and including the
first segment literally named `src` when one is present (in particular
`/home/build/src/pkg/file.go` yields `/pkg/file.go`), and returns every path
with no `src` segment unchanged. -/
theorem relative_file_path_spec (file : List Char) (pre post : List (List Char))
    (h1 : splitOnSlash file = pre ++ srcSegment :: post) (h2 : srcSegment ∉ pre) :
    RelativeFilePath file = ((post.map (fun f => '/' :: f)).flatten)
      ∧ RelativeFilePath (("/home/build/src/pkg/file.go").toList) = ("/pkg/file.go").toList
      ∧ ∀ g : List Char, srcSegment ∉ splitOnSlash g → RelativeFilePath g = g := by
  refine ⟨?_, by decide, ?_⟩
  · have hall : ∀ a ∈ pre, (!(a == srcSegment)) = true := by
      intro a hmem
      have hne : a ≠ srcSegment := fun e => h2 (e ▸ hmem)
      simp [hne]
    have hx : (!(srcSegment == srcSegment)) = false := by simp
    have ht : (pre ++ srcSegment :: post).takeWhile (fun f => !(f == srcSegment)) = pre :=
      takeWhile_middle _ pre _ post hall hx
    have hlen : ¬ ((pre ++ srcSegment :: post).length ≤ pre.length) := by
      simp only [List.length_append, List.length_cons]
      omega
    have hdrop : (pre ++ srcSegment :: post).drop (pre.length + 1) = post := by
      have h3 : pre ++ srcSegment :: post = (pre ++ [srcSegment]) ++ post := by simp
      have h4 : pre.length + 1 = (pre ++ [srcSegment]).length := by simp
      rw [h3, h4, drop_len_append]
    simp only [RelativeFilePath, h1, ht, hlen, if_false, hdrop]
  · intro g hg
    have hall : ∀ a ∈ splitOnSlash g, (fun f => !(f == srcSegment)) a = true := by
      intro a hmem
      have hne : a ≠ srcSegment := fun e => hg (e ▸ hmem)
      simp [hne]
    have ht := takeWhile_of_all (fun f => !(f == srcSegment)) (splitOnSlash g) hall
    simp only [RelativeFilePath, ht, le_refl, if_true]

theorem relative_file_path_spec_witness :
    RelativeFilePath (("/home/build/src/pkg/file.go").toList)
        = ((([("pkg").toList, ("file.go").toList].map (fun f => '/' :: f)).flatten))
      ∧ RelativeFilePath (("relative/no/marker.go").toList)
        = ("relative/no/marker.go").toList := by
  have h := relative_file_path_spec (("/home/build/src/pkg/file.go").toList)
    [[], ("home").toList, ("build").toList] [("pkg").toList, ("file.go").toList]
    (by decide) (by decide)
  exact ⟨h.1, h.2.2 (("relative/no/marker.go").toList) (by decide)⟩

/-- Claim C6: every `StackableError` built by `newStackableError` with
maximum depth `mx` captures at most `mx` raw addresses (`Callers`), and
`StackFrames` returns exactly one entry per captured address, hence also at
most `mx` entries. -/
theorem depth_bound (mx : Nat) (callers : List Nat) (e : GoError) (st : St)
    (symtab : Nat → Option RFunc) :
    ∃ d : SEData,
      (newStackableError mx callers e st).2.mem.lookup (newStackableError mx callers e st).1
          = some d
        ∧ Callers (newStackableError mx callers e st).2 (newStackableError mx callers e st).1
          = some d.stack
        ∧ d.stack.length ≤ mx
        ∧ (StackFrames symtab (newStackableError mx callers e st).2
            (newStackableError mx callers e st).1).1
          = some (d.stack.map (NewStackFrame symtab))
        ∧ (d.stack.map (NewStackFrame symtab)).length ≤ mx := by
  have hlen : (callers.take mx).length ≤ mx := by
    rw [List.length_take]
    exact Nat.min_le_left mx callers.length
  refine ⟨⟨e, [], callers.take mx, none⟩, ?_, ?_, hlen, ?_, ?_⟩
  · exact lookup_cons_self _ _ _
  · simp [Callers, newStackableError, lookup_cons_self]
  · simp [StackFrames, newStackableError, lookup_cons_self]
  · rw [List.length_map]
    exact hlen

/-- Claim C8: `NewStackFrame` is total: the zero sentinel address yields a
frame with empty file, function name and package and zero line number (for
every symbol table, i.e. without any lookup), and so does any address the
symbol table cannot resolve. -/
theorem null_address_total (symtab : Nat → Option RFunc) (caller : Nat)
    (h : symtab caller = none) :
    NewStackFrame symtab 0
        = { Caller := 0, File := [], LineNumber := 0, FunctionName := [], Package := [] }
      ∧ NewStackFrame symtab caller
        = { Caller := caller, File := [], LineNumber := 0, FunctionName := [], Package := [] } := by
  constructor
  · rfl
  · by_cases hc : caller = 0
    · subst hc; rfl
    · simp [NewStackFrame, StackFrame.Func, initFrame, hc, h]

theorem null_address_total_witness :
    NewStackFrame (fun _ => none) 0
        = { Caller := 0, File := [], LineNumber := 0, FunctionName := [], Package := [] }
      ∧ NewStackFrame (fun _ => none) 7
        = { Caller := 7, File := [], LineNumber := 0, FunctionName := [], Package := [] } :=
  null_address_total (fun _ => none) 7 rfl

/-- Claim C2: `Error()` folds the prefix sequence onto the cause's message in
append order, each fold producing `"<prefix>: <accumulated>"`, so the most
recently appended prefix comes first: for every non-`StackableError` cause,
wrapping with `p1` and then with `p2` renders `p2 ++ ": " ++ p1 ++ ": " ++ m`. -/
theorem error_prefix_order (mx1 mx2 : Nat) (c1 c2 : List Nat) (i : Nat)
    (m p1 p2 : List Char) (st : St) (fuel : Nat) :
    errorMsg
        (WrapPrefix mx2 c2
          (.err (.se (WrapPrefix mx1 c1 (.err (.base i m)) p1 st).1)) p2
          (WrapPrefix mx1 c1 (.err (.base i m)) p1 st).2).2
        (fuel + 1)
        (.se (WrapPrefix mx2 c2
          (.err (.se (WrapPrefix mx1 c1 (.err (.base i m)) p1 st).1)) p2
          (WrapPrefix mx1 c1 (.err (.base i m)) p1 st).2).1)
      = some (p2 ++ ':' :: ' ' :: (p1 ++ ':' :: ' ' :: m)) := by
  simp [WrapPrefix, Wrap, newStackableError, St.update, errorMsg, List.lookup]

/-- Claim C3: `Is` identifies identical objects, unwraps a `StackableError`
on either side to its cause, and is otherwise false (on two plain errors it
is exactly identity of the underlying objects); consequently for a sentinel
`E`, `Is (Wrap E) E`, `Is (Wrap (Wrap E)) E` and `Is (Wrap E) (Wrap E)` with
two distinct wraps (allocated at distinct references) all hold. -/
theorem chain_equality (st : St) (mx1 mx2 : Nat) (c1 c2 : List Nat) (i j : Nat)
    (m m2 : List Char) (fuel : Nat) :
    Is (Wrap mx1 c1 (.err (.base i m)) st).2 (fuel + 2)
        (.se (Wrap mx1 c1 (.err (.base i m)) st).1) (.base i m) = true
      ∧ Is (Wrap mx2 c2 (.err (.se (Wrap mx1 c1 (.err (.base i m)) st).1))
            (Wrap mx1 c1 (.err (.base i m)) st).2).2 (fuel + 2)
          (.se (Wrap mx2 c2 (.err (.se (Wrap mx1 c1 (.err (.base i m)) st).1))
            (Wrap mx1 c1 (.err (.base i m)) st).2).1) (.base i m) = true
      ∧ (Wrap mx2 c2 (.err (.base i m)) (Wrap mx1 c1 (.err (.base i m)) st).2).1
          = (Wrap mx1 c1 (.err (.base i m)) st).1 + 1
      ∧ Is (Wrap mx2 c2 (.err (.base i m)) (Wrap mx1 c1 (.err (.base i m)) st).2).2 (fuel + 3)
          (.se (Wrap mx1 c1 (.err (.base i m)) st).1)
          (.se (Wrap mx2 c2 (.err (.base i m)) (Wrap mx1 c1 (.err (.base i m)) st).2).1) = true
      ∧ Is st (fuel + 1) (.base i m) (.base j m2) = (i == j) := by
  have hne : st.next ≠ st.next + 1 := Nat.ne_of_lt (Nat.lt_succ_self st.next)
  have hb : (st.next == st.next + 1) = false := by simp [hne]
  have hfirst : Is (Wrap mx1 c1 (.err (.base i m)) st).2 (fuel + 2)
      (.se (Wrap mx1 c1 (.err (.base i m)) st).1) (.base i m) = true := by
    simp [Wrap, newStackableError, Is, goEq, List.lookup]
  refine ⟨hfirst, hfirst, rfl, ?_, ?_⟩
  · show Is ⟨st.next + 1 + 1, (st.next + 1, _) :: (st.next, _) :: st.mem⟩ (fuel + 3)
      (.se st.next) (.se (st.next + 1)) = true
    simp [Is, goEq, hb, List.lookup, hne]
  · cases hij : (i == j) with
    | true =>
      have : i = j := by simpa using hij
      subst this
      simp [Is, goEq]
    | false =>
      simp [Is, goEq, hij]

/-- Claim C7: frame resolution is memoized once: after one call to
`StackFrames` the cache holds the resolved frames (one `NewStackFrame` per
captured address when the cache was empty), and a second call on the same
object returns the identical cached sequence and heap without consulting the
symbol table again (the resolver used by the second call is irrelevant). -/
theorem resolution_caching (symtab symtab2 : Nat → Option RFunc) (st : St) (r : Nat)
    (d : SEData) (h : st.mem.lookup r = some d) :
    StackFrames symtab2 (StackFrames symtab st r).2 r = StackFrames symtab st r
      ∧ (StackFrames symtab st r).1
          = some (d.frames.getD (d.stack.map (NewStackFrame symtab)))
      ∧ (StackFrames symtab st r).2.mem.lookup r
          = some { d with frames := some (d.frames.getD (d.stack.map (NewStackFrame symtab))) } := by
  cases hf : d.frames with
  | some fs =>
    have hres : StackFrames symtab st r = (some fs, st) := by
      simp [StackFrames, h, hf]
    have hd : ({ d with frames := some fs } : SEData) = d := by
      cases d
      simp_all
    refine ⟨?_, ?_, ?_⟩
    · rw [hres]
      simp [StackFrames, h, hf]
    · rw [hres]
      simp
    · rw [hres]
      simp [h, hd]
  | none =>
    set fs := d.stack.map (NewStackFrame symtab) with hfs
    have hlook : (st.update r fun d0 => { d0 with frames := some fs }).mem.lookup r
        = some { d with frames := some fs } :=
      (lookup_update_self st.mem r (fun d0 => { d0 with frames := some fs })).trans
        (by rw [h]; rfl)
    have hres : StackFrames symtab st r
        = (some fs, st.update r fun d0 => { d0 with frames := some fs }) := by
      simp [StackFrames, h, hf, St.update, hfs]
    refine ⟨?_, ?_, ?_⟩
    · rw [hres]
      simp [StackFrames, hlook]
    · rw [hres]
      simp
    · rw [hres]
      simpa using hlook

theorem resolution_caching_witness :
    StackFrames (fun _ => none)
        (StackFrames (fun _ => none) ⟨1, [(0, ⟨.base 0 [], [], [5], none⟩)]⟩ 0).2 0
      = StackFrames (fun _ => none) ⟨1, [(0, ⟨.base 0 [], [], [5], none⟩)]⟩ 0 :=
  (resolution_caching (fun _ => none) (fun _ => none) ⟨1, [(0, ⟨.base 0 [], [], [5], none⟩)]⟩ 0
    ⟨.base 0 [], [], [5], none⟩ rfl).1

/-- Claim C9: `StackTrace()` is exactly `"ERROR: " ++ Error() ++ "\n" ++
Stack()`, where `Stack()` concatenates, in capture order, the rendered line of
each frame of `StackFrames()`, each followed by a line break. -/
theorem stack_trace_format (symtab : Nat → Option RFunc) (st : St) (r : Nat) (d : SEData)
    (fuel : Nat) (mv : List Char)
    (h : st.mem.lookup r = some d) (hm : errorMsg st fuel (.se r) = some mv) :
    StackFrames symtab st r
        = (some (d.frames.getD (d.stack.map (NewStackFrame symtab))),
           (StackFrames symtab st r).2)
      ∧ Stack symtab st r
        = (some (((d.frames.getD (d.stack.map (NewStackFrame symtab))).map
            (fun f => f.line ++ ['\n'])).flatten), (StackFrames symtab st r).2)
      ∧ StackTrace symtab fuel st r
        = (some (("ERROR: ").toList ++ mv ++ '\n' ::
            ((d.frames.getD (d.stack.map (NewStackFrame symtab))).map
              (fun f => f.line ++ ['\n'])).flatten), (StackFrames symtab st r).2) := by
  have h1 : (StackFrames symtab st r).1
      = some (d.frames.getD (d.stack.map (NewStackFrame symtab))) := by
    cases hf : d.frames with
    | some fs => simp [StackFrames, h, hf]
    | none => simp [StackFrames, h, hf]
  have hSF : StackFrames symtab st r
      = (some (d.frames.getD (d.stack.map (NewStackFrame symtab))),
         (StackFrames symtab st r).2) :=
    Prod.ext h1 rfl
  have h2 : Stack symtab st r
      = (some (((d.frames.getD (d.stack.map (NewStackFrame symtab))).map
          (fun f => f.line ++ ['\n'])).flatten), (StackFrames symtab st r).2) := by
    unfold Stack
    rw [hSF]
  have h3 : StackTrace symtab fuel st r
      = (some (("ERROR: ").toList ++ mv ++ '\n' ::
          ((d.frames.getD (d.stack.map (NewStackFrame symtab))).map
            (fun f => f.line ++ ['\n'])).flatten), (StackFrames symtab st r).2) := by
    unfold StackTrace
    rw [hm, h2]
  exact ⟨hSF, h2, h3⟩

theorem stack_trace_format_witness :
    StackTrace (fun _ => none) 1 ⟨1, [(0, ⟨.base 2 (("boom").toList), [], [4], none⟩)]⟩ 0
      = (some (("ERROR: ").toList ++ ("boom").toList ++ '\n' ::
          ((((none : Option (List StackFrame)).getD
            ([4].map (NewStackFrame (fun _ => none)))).map
            (fun f => f.line ++ ['\n'])).flatten)),
         (StackFrames (fun _ => none) ⟨1, [(0, ⟨.base 2 (("boom").toList), [], [4], none⟩)]⟩ 0).2) :=
  (stack_trace_format (fun _ => none) ⟨1, [(0, ⟨.base 2 (("boom").toList), [], [4], none⟩)]⟩ 0
    ⟨.base 2 (("boom").toList), [], [4], none⟩ 1 (("boom").toList) rfl (by decide)).2.2

/-- Claim C10: `WrapPrefix` on a value that is already a `*StackableError`
returns the same object (same reference, same heap counter) with the new
prefix appended in place, so any alias holding the same reference observes the
new prefix in its `Error()` output; the cause, captured addresses and frame
cache are untouched, and every other heap object is unchanged. -/
theorem wrap_prefix_in_place (mx : Nat) (callers : List Nat) (pfx : List Char) (st : St)
    (r : Nat) (d : SEData) (h : st.mem.lookup r = some d) :
    (WrapPrefix mx callers (.err (.se r)) pfx st).1 = r
      ∧ (WrapPrefix mx callers (.err (.se r)) pfx st).2.next = st.next
      ∧ (WrapPrefix mx callers (.err (.se r)) pfx st).2.mem.lookup r
          = some { d with Prefixes := d.Prefixes ++ [pfx] }
      ∧ (∀ r2, r2 ≠ r →
          (WrapPrefix mx callers (.err (.se r)) pfx st).2.mem.lookup r2 = st.mem.lookup r2)
      ∧ (∀ fuel, errorMsg (WrapPrefix mx callers (.err (.se r)) pfx st).2 (fuel + 1) (.se r)
          = (errorMsg (WrapPrefix mx callers (.err (.se r)) pfx st).2 fuel d.Err).map
              (fun m0 => (d.Prefixes ++ [pfx]).foldl (fun acc p => p ++ ':' :: ' ' :: acc) m0)) := by
  have hw : WrapPrefix mx callers (.err (.se r)) pfx st
      = (r, st.update r fun d0 => { d0 with Prefixes := d0.Prefixes ++ [pfx] }) := rfl
  have hl : (WrapPrefix mx callers (.err (.se r)) pfx st).2.mem.lookup r
      = some { d with Prefixes := d.Prefixes ++ [pfx] } :=
    (lookup_update_self st.mem r (fun d0 => { d0 with Prefixes := d0.Prefixes ++ [pfx] })).trans
      (by rw [h]; rfl)
  refine ⟨rfl, rfl, hl, ?_, ?_⟩
  · intro r2 hr2
    exact lookup_update_ne st.mem
      (fun d0 => { d0 with Prefixes := d0.Prefixes ++ [pfx] }) hr2
  · intro fuel
    simp only [errorMsg, hl]
    cases herr : errorMsg (WrapPrefix mx callers (.err (.se r)) pfx st).2 fuel d.Err with
    | none => simp [herr]
    | some m0 => simp [herr]

theorem wrap_prefix_in_place_witness :
    (WrapPrefix 50 [8] (.err (.se 0)) (("b").toList) ⟨1, [(0, ⟨.base 3 (("x").toList),
        [("a").toList], [9], none⟩)]⟩).2.mem.lookup 0
      = some { Err := .base 3 (("x").toList),
               Prefixes := [("a").toList] ++ [("b").toList], stack := [9], frames := none }
      ∧ (WrapPrefix 50 [8] (.err (.se 0)) (("b").toList) ⟨1, [(0, ⟨.base 3 (("x").toList),
          [("a").toList], [9], none⟩)]⟩).2.mem.lookup 5
        = (⟨1, [(0, ⟨.base 3 (("x").toList), [("a").toList], [9], none⟩)]⟩ : St).mem.lookup 5 := by
  have hthm := wrap_prefix_in_place 50 [8] (("b").toList)
    ⟨1, [(0, ⟨.base 3 (("x").toList), [("a").toList], [9], none⟩)]⟩ 0
    ⟨.base 3 (("x").toList), [("a").toList], [9], none⟩ rfl
  exact ⟨hthm.2.2.1, hthm.2.2.2.1 5 (by decide)⟩

end ErrgoProof
